import Mathlib

/-!
Verification of the krouter HTTP route multiplexer (router.go, tree.go, params.go).

The Go source is shallowly embedded:
- http.HandlerFunc values are identified by Nat ids (the dispatcher never
  inspects a handler, it only selects and invokes one);
- Middleware values attached to nodes are likewise identified by Nat ids;
  the middleware composition function (source func handle) is embedded
  separately over an abstract handler type to state the ordering law;
- Go maps (children, trees, routes, params) are association lists with
  insert-or-overwrite update; a Go map read of a missing key yields the
  zero value "" exactly as in Go;
- Go pointers to trie nodes (map routes) are represented by the list of
  child keys leading from the root to the node: nodes are created once and
  mutated in place, so this key path identifies a node stably;
- runtime panics (index out of range, MustCompile failure) are explicit
  result constructors;
- the Go regexp engine is modelled for exactly the fragment of expressions
  the router constructs: concatenations of plain literal runs and
  parenthesized capture groups over the classes [\w]+ / [\d]+ (also
  written \w+ / \d+).  Expressions outside this fragment yield a distinct
  unsupported result, never a spurious match or mismatch.  For this
  fragment a greedy maximal-munch scan is exact: every group class
  excludes the character '/' and each group is followed either by the end
  of the expression or by a literal beginning with '/', so no backtracking
  into a group can ever extend a match.
-/

namespace KRouter

/-- Membership in the regexp class \w, i.e. ASCII letters, digits and the
underscore, as matched by the Go regexp engine for source defaultPattern. -/
def isWordChar (c : Char) : Bool := c.isAlphanum || c == '_'

/-- Membership in the regexp class \d (source idPattern). -/
def isDigitChar (c : Char) : Bool := c.isDigit

/-- Splitting a character list on a single separator character, keeping
empty fragments, exactly like Go strings.Split for a one-character
separator: the result always has one more element than there are
separators. -/
def splitOnChar (sep : Char) : List Char → List (List Char)
  | [] => [[]]
  | c :: rest =>
    if c == sep then [] :: splitOnChar sep rest
    else
      match splitOnChar sep rest with
      | [] => [[c]]
      | h :: t => (c :: h) :: t

/-- Go strings.Split specialised to a one-character separator. -/
def splitStr (sep : Char) (s : String) : List String :=
  (splitOnChar sep s.toList).map String.mk

/-- Source tree.go trimPathPrefix: strings.TrimPrefix(pattern, "/"), which
removes at most one leading slash. -/
def trimPathPrefix (p : String) : String :=
  match p.toList with
  | '/' :: rest => String.mk rest
  | _ => p

/-- Source tree.go splitPattern: strings.Split(pattern, "/"). -/
def splitPattern (p : String) : List String := splitStr '/' p

/-- Source tree.go Node.  The children map is an association list of child
nodes; every child is stored under its own key field, as in the source
(children[key] always holds the node created by NewNode(key, ...)). -/
inductive Node : Type where
  | mk (key : String) (path : String) (handle : Option Nat) (depth : Nat)
       (children : List Node) (isEnd : Bool) (middleware : List Nat) : Node

def Node.key : Node → String
  | .mk k _ _ _ _ _ _ => k

def Node.path : Node → String
  | .mk _ p _ _ _ _ _ => p

def Node.handle : Node → Option Nat
  | .mk _ _ h _ _ _ _ => h

def Node.depth : Node → Nat
  | .mk _ _ _ d _ _ _ => d

def Node.children : Node → List Node
  | .mk _ _ _ _ cs _ _ => cs

def Node.isEnd : Node → Bool
  | .mk _ _ _ _ _ e _ => e

def Node.middleware : Node → List Nat
  | .mk _ _ _ _ _ _ mw => mw

/-- Source tree.go NewNode: fresh node with empty path, nil handler, no
children, not terminal, no middleware. -/
def NewNode (key : String) (depth : Nat) : Node :=
  .mk key "" none depth [] false []

/-- Go map read children[key]. -/
def lookupChild (n : Node) (k : String) : Option Node :=
  n.children.find? (fun c => c.key == k)

/-- Go map write children[key] = node: overwrite in place, or append a new
binding. -/
def setChild : List Node → String → Node → List Node
  | [], _, c => [c]
  | c0 :: rest, k, c =>
    if c0.key == k then c :: rest else c0 :: setChild rest k c

/-- Source Register lines setting currNode.handle, currNode.isEnd and
currNode.path on the terminal node of a registration. -/
def Node.withTerminal : Node → Nat → String → Node
  | .mk k _ _ d cs _ mw, hId, p => .mk k p (some hId) d cs true mw

def Node.withChildren : Node → List Node → Node
  | .mk k p h d _ e mw, cs => .mk k p h d cs e mw

/-- Go append on a node's middleware slice. -/
def Node.appendMW : Node → List Nat → Node
  | .mk k p h d cs e mw, extra => .mk k p h d cs e (mw ++ extra)

/-- The descent loop of source Tree.Register: walk the key list from the
given node, creating any missing child with NewNode(key, depth+1) and
attaching the supplied middleware to newly created nodes only, then make
the final node terminal. -/
def registerAt (n : Node) (keys : List String) (hId : Nat) (mw : List Nat)
    (storedPath : String) : Node :=
  match keys with
  | [] => n.withTerminal hId storedPath
  | k :: ks =>
    let child :=
      match lookupChild n k with
      | some c => c
      | none =>
        let fresh := NewNode k (n.depth + 1)
        if mw.length > 0 then fresh.appendMW mw else fresh
    n.withChildren (setChild n.children k (registerAt child ks hId mw storedPath))

mutual

/-- Total number of nodes in a subtree; used as loop fuel for the
breadth-first scan, which strictly shrinks this measure each level. -/
def Node.size : Node → Nat
  | .mk _ _ _ _ cs _ _ => 1 + sizeList cs

def sizeList : List Node → Nat
  | [] => 0
  | c :: rest => c.size + sizeList rest

end

/-- One pass of source Search's queue loop: children of all queued nodes,
in queue order (sibling order is the association-list order; the Go source
iterates an unordered map here, see the design notes of the spec). -/
def childrenAll : List Node → List Node
  | [] => []
  | n :: rest => n.children ++ childrenAll rest

/-- Nodes of the queue with isEnd set, in queue order. -/
def collectEnds (queue : List Node) : List Node := queue.filter Node.isEnd

/-- Fuelled version of source Search's breadth-first queue loop: per level,
collect the terminal nodes then move to the concatenated children.  The
loop of the source terminates because every level strictly decreases the
total remaining subtree size, which is exactly the fuel supplied below. -/
def bfsFuel : Nat → List Node → List Node
  | _, [] => []
  | 0, _ :: _ => []
  | fuel + 1, n :: rest =>
    collectEnds (n :: rest) ++ bfsFuel fuel (childrenAll (n :: rest))

/-- Source Search's breadth-first collection phase starting from a queue. -/
def bfsCollect (queue : List Node) : List Node :=
  bfsFuel (sizeList queue) queue

/-- Source tree.go Tree.  parameters is the routeName field of the embedded
Parameters struct; routes maps a route name to the key path identifying the
bound node (the embedding of the Go node pointer). -/
structure Tree : Type where
  root : Node
  parameters : String
  routes : List (String × List String)

/-- Source NewTree: root node with key "/" and depth 1. -/
def NewTree : Tree :=
  { root := NewNode "/" 1, parameters := "", routes := [] }

/-- Go map write m[k] = v on an association list. -/
def upsert {α : Type} : List (String × α) → String → α → List (String × α)
  | [], k, v => [(k, v)]
  | (k0, v0) :: rest, k, v =>
    if k0 == k then (k, v) :: rest else (k0, v0) :: upsert rest k v

/-- Go map read m[k] returning an option. -/
def lookupStr {α : Type} : List (String × α) → String → Option α
  | [], _ => none
  | (k0, v0) :: rest, k => if k0 == k then some v0 else lookupStr rest k

/-- Source Register's post-descent step: if middleware was supplied and the
final node's depth equals 1 (which happens exactly for the root pattern
"/"), append the middleware to that node.  The node is addressed by its
key path. -/
def appendMWIfDepth1 : Node → List String → List Nat → Node
  | n, [], mw => if n.depth == 1 then n.appendMW mw else n
  | n, k :: ks, mw =>
    match lookupChild n k with
    | none => n
    | some c => n.withChildren (setChild n.children k (appendMWIfDepth1 c ks mw))

/-- Source tree.go Tree.Register.  When the pattern equals the root key the
root itself becomes terminal and the stored path is the untrimmed pattern;
otherwise the pattern is trimmed, split, and inserted by descent.  The
depth-1 middleware append and the terminal-field assignment touch disjoint
fields, so their order is immaterial.  Finally, when the tree carries a
route name, the routes map binds that name to the (key path of the)
terminal node, overwriting any previous binding. -/
def Tree.Register (t : Tree) (pattern : String) (hId : Nat) (mw : List Nat) : Tree :=
  let pair :=
    if pattern == t.root.key then (([] : List String), pattern)
    else
      let trimmed := trimPathPrefix pattern
      (splitPattern trimmed, trimmed)
  let keys := pair.1
  let storedPath := pair.2
  let root1 := registerAt t.root keys hId mw storedPath
  let root2 := if mw.length > 0 then appendMWIfDepth1 root1 keys mw else root1
  let routes1 :=
    if t.parameters != "" then upsert t.routes t.parameters keys else t.routes
  { root := root2, parameters := t.parameters, routes := routes1 }

/-- The descent loop of source Tree.Search: walk the key list; on a missing
child return nothing in exact mode but fall through to the breadth-first
scan in regex mode; in exact mode return a singleton as soon as a child's
stored path equals the (trimmed) search pattern; when the key list is
exhausted, fall through to the breadth-first scan from the reached node. -/
def searchLoop (node : Node) (pat : String) (keys : List String) (isRegex : Bool) :
    List Node :=
  match keys with
  | [] => bfsCollect [node]
  | k :: ks =>
    match lookupChild node k with
    | none => if isRegex then bfsCollect [node] else []
    | some child =>
      if pat == child.path && !isRegex then [child]
      else searchLoop child pat ks isRegex

/-- Source tree.go Tree.Search. -/
def Tree.Search (t : Tree) (pattern : String) (isRegex : Bool) : List Node :=
  if pattern == t.root.path then [t.root]
  else
    let pat := if !isRegex then trimPathPrefix pattern else pattern
    searchLoop t.root pat (splitPattern pat) isRegex

/-- Source router.go defaultPattern. -/
def defaultPattern : String := "[\\w]+"

/-- Source router.go idPattern. -/
def idPattern : String := "[\\d]+"

/-- Source router.go idKey. -/
def idKey : String := "id"

/-- The two character classes occurring in expressions the router builds. -/
inductive Cls : Type where
  | word : Cls
  | digit : Cls
deriving DecidableEq

def clsMem : Cls → Char → Bool
  | .word, c => isWordChar c
  | .digit, c => isDigitChar c

/-- One piece of a compiled expression: a literal character run, or a
parenthesized capture group over a character class repeated once or more. -/
inductive Piece : Type where
  | lit (cs : List Char) : Piece
  | grp (cls : Cls) : Piece
deriving DecidableEq

/-- Recognise the class bodies the router inserts into capture groups
(its own [\w]+ / [\d]+ and the equivalent spellings \w+ / \d+ of custom
segments). -/
def parseClsBody (b : String) : Option Cls :=
  if b == "[\\w]+" || b == "\\w+" then some .word
  else if b == "[\\d]+" || b == "\\d+" then some .digit
  else none

/-- Characters that the Go regexp engine treats as literals; anything else
outside a group makes the expression fall outside the modelled fragment. -/
def isPlainChar (c : Char) : Bool :=
  isWordChar c || c == '/' || c == '-' || c == '@'

def consLit (c : Char) : List Piece → List Piece
  | .lit cs :: ps => .lit (c :: cs) :: ps
  | ps => .lit [c] :: ps

/-- Compile an expression string into pieces.  The fuel equals the length
of the character list; every step consumes at least one character, so the
fuel never runs out on the inputs compilePat supplies. -/
def compileFuel : Nat → List Char → Option (List Piece)
  | _, [] => some []
  | 0, _ :: _ => none
  | fuel + 1, '(' :: rest =>
    let body := rest.takeWhile (fun c => !(c == ')'))
    (match rest.drop body.length with
     | ')' :: rest2 =>
       match parseClsBody (String.mk body) with
       | some cls => (compileFuel fuel rest2).map (fun ps => .grp cls :: ps)
       | none => none
     | _ => none)
  | fuel + 1, c :: rest =>
    if isPlainChar c then (compileFuel fuel rest).map (consLit c) else none

/-- Model of regexp.MustCompile restricted to the fragment the router
generates; none stands for an expression outside the fragment. -/
def compilePat (s : String) : Option (List Piece) :=
  compileFuel s.toList.length s.toList

/-- Match the piece list at the head of the input.  Groups munch the
maximal run of their class; as argued in the header, this is exact for
every expression the router constructs.  Returns the unconsumed suffix and
the captured group contents in order. -/
def matchPieces : List Piece → List Char → Option (List Char × List (List Char))
  | [], s => some (s, [])
  | .lit cs :: ps, s =>
    if cs.isPrefixOf s then matchPieces ps (s.drop cs.length) else none
  | .grp cls :: ps, s =>
    let run := s.takeWhile (clsMem cls)
    if run.length == 0 then none
    else
      match matchPieces ps (s.drop run.length) with
      | some (rest, caps) => some (rest, run :: caps)
      | none => none

/-- Whole match (the consumed prefix) and captures of a match anchored at
the start of the input, if any. -/
def matchFrom (ps : List Piece) (s : List Char) : Option (List Char × List (List Char)) :=
  match matchPieces ps s with
  | some (rest, caps) => some (s.take (s.length - rest.length), caps)
  | none => none

/-- Model of FindSubmatch: leftmost match — try each start position from
the left and return the first whole match and its captures. -/
def findSub (ps : List Piece) : List Char → Option (List Char × List (List Char))
  | [] => matchFrom ps []
  | c :: t =>
    match matchFrom ps (c :: t) with
    | some r => some r
    | none => findSub ps t

/-- The segment loop of source matchAndParse: accumulate the capture-name
list (only named-simple segments contribute a name) and the expression
string.  Returns none where the source panics: a {name:re} segment whose
inner text has no ":" makes list[1] an out-of-range index. -/
def buildSegs : List String → List String → String → Option (List String × String)
  | [], names, pat => some (names, pat)
  | s :: rest, names, pat =>
    match s.toList with
    | [] => buildSegs rest names pat
    | c0 :: cs1 =>
      let lastChar := (c0 :: cs1).getLastD c0
      if c0 == '\x7b' && lastChar == '\x7d' then
        let inner := ((c0 :: cs1).drop 1).dropLast
        let parts := (splitOnChar ':' inner).map String.mk
        match parts.get? 1 with
        | none => none
        | some body => buildSegs rest names (pat ++ "/(" ++ body ++ ")")
      else if c0 == ':' then
        let parts := (splitOnChar ':' (c0 :: cs1)).map String.mk
        let nm := (parts.get? 1).getD ""
        if nm == idKey then
          buildSegs rest (names ++ [nm]) (pat ++ "/(" ++ idPattern ++ ")")
        else
          buildSegs rest (names ++ [nm]) (pat ++ "/(" ++ defaultPattern ++ ")")
      else buildSegs rest names (pat ++ "/" ++ s)

/-- Go strings.HasSuffix(s, "/"). -/
def endsWithSlash (s : String) : Bool := s.toList.getLast? == some '/'

/-- Capture-name list and full expression string that source matchAndParse
builds for a stored path and a request (the request only contributes the
trailing-slash rule). -/
def buildPattern (requestURL path : String) : Option (List String × String) :=
  match buildSegs (splitPattern path) [] "" with
  | none => none
  | some (names, pat) =>
    some (names, if endsWithSlash requestURL then pat ++ "/" else pat)

/-- Result of source matchAndParse: a parameter map on success, a plain
mismatch, a runtime panic, or an expression outside the modelled regexp
fragment. -/
inductive MAPOut : Type where
  | ok (params : List (String × String)) : MAPOut
  | noMatch : MAPOut
  | panicked : MAPOut
  | unsupported : MAPOut
deriving DecidableEq

/-- Source router.go matchAndParse.  After FindSubmatch succeeds and the
whole match equals the request path, the source reslices subMatch to
subMatch[:1] — keeping only the whole match, not the capture groups — and
zips that single element against matchName: matchName[0] is the name of
the first named-simple segment (an out-of-range panic when there is none)
and it is bound to the entire request path. -/
def matchAndParse (requestURL path : String) : MAPOut :=
  match buildPattern requestURL path with
  | none => .panicked
  | some (names, pat) =>
    match compilePat pat with
    | none => .unsupported
    | some ps =>
      match findSub ps requestURL.toList with
      | some (whole, _caps) =>
        if whole == requestURL.toList then
          match names with
          | [] => .panicked
          | n0 :: _ => .ok [(n0, String.mk whole)]
        else .noMatch
      | none => .noMatch

/-- Result of source Router.Generate: a generated path, one of the four
recoverable errors, a runtime panic, or a custom segment expression
outside the modelled regexp fragment. -/
inductive GenOut : Type where
  | ok (path : String) : GenOut
  | errMethodNotFound : GenOut
  | errRouteNotFound : GenOut
  | errInvalidParameters : GenOut
  | errPatternGrammar : GenOut
  | panicked : GenOut
  | unsupported : GenOut
deriving DecidableEq

/-- Go map read params[k] on a string map: the zero value "" when the key
is absent. -/
def lookupParam (params : List (String × String)) (k : String) : String :=
  match lookupStr params k with
  | some v => v
  | none => ""

/-- Model of regex.Find([]byte(key)) != nil for a class-plus expression: a
substring match exists exactly when some character of key lies in the
class. -/
def reFindCls (cls : Cls) (key : String) : Bool := key.toList.any (clsMem cls)

/-- Outcome of processing one segment inside source Generate's loop. -/
inductive SegOut : Type where
  | val (s : String) : SegOut
  | invalid : SegOut
  | grammar : SegOut
  | panicked : SegOut
  | unsupported : SegOut
deriving DecidableEq

/-- One iteration of source Generate's segment loop.  An empty segment
panics at segment[0].  A named-simple segment is validated against
defaultPattern — the word class, whatever the name — by substring search.
A braced segment must end in a closing brace; its inner text is split on
":" (index 1 panics when absent, and the expression is compiled before the
parameter is validated, matching the source's statement order); a closing
brace without an opening one is a grammar error; anything else passes
through as a literal. -/
def genSeg (segment : String) (params : List (String × String)) : SegOut :=
  match segment.toList with
  | [] => .panicked
  | c0 :: cs1 =>
    if c0 == ':' then
      let key := lookupParam params (String.mk cs1)
      if reFindCls .word key then .val key else .invalid
    else if c0 == '\x7b' then
      let lastChar := (c0 :: cs1).getLastD c0
      if lastChar == '\x7d' then
        let inner := ((c0 :: cs1).drop 1).dropLast
        let parts := (splitOnChar ':' inner).map String.mk
        match parts.get? 1 with
        | none => .panicked
        | some body =>
          match parseClsBody body with
          | none => .unsupported
          | some cls =>
            let key := lookupParam params (parts.headD "")
            if reFindCls cls key then .val key else .invalid
      else .grammar
    else
      let lastChar := (c0 :: cs1).getLastD c0
      if lastChar == '\x7d' then .grammar
      else .val segment

/-- Go strings.Join(segments, "/"). -/
def joinSegs : List String → String
  | [] => ""
  | [s] => s
  | s :: r :: rest => s ++ "/" ++ joinSegs (r :: rest)

/-- The segment loop of source Generate, accumulating substituted
segments. -/
def genLoop : List String → List (String × String) → List String → GenOut
  | [], _, segments => .ok ("/" ++ joinSegs segments)
  | s :: rest, params, segments =>
    match genSeg s params with
    | .val v => genLoop rest params (segments ++ [v])
    | .invalid => .errInvalidParameters
    | .grammar => .errPatternGrammar
    | .panicked => .panicked
    | .unsupported => .unsupported

/-- Dereference an embedded node pointer: follow the key path from the
root. -/
def getNode : Node → List String → Option Node
  | n, [] => some n
  | n, k :: ks =>
    match lookupChild n k with
    | none => none
    | some c => getNode c ks

/-- Source router.go Router.  The notFound and PanicHandler fields are not
carried: dispatch is modelled as the sequence of invocation events, in
which the not-found path is its own event. -/
structure Router : Type where
  pfx : String
  middleware : List Nat
  trees : List (String × Tree)
  parameters : String

/-- Source New. -/
def Router.New : Router :=
  { pfx := "", middleware := [], trees := [], parameters := "" }

/-- Source methods set: the valid http methods. -/
def methods : List String := ["GET", "POST", "PUT", "DELETE", "PATCH", "HEAD"]

/-- Source Router.Handle.  none models the panic on an invalid method.
The tree is created lazily, the router prefix is prepended when non-empty,
a non-empty router routeName is copied into the tree's parameters (and
otherwise the tree keeps whatever name it already holds), then Register
runs with the router's middleware stack. -/
def Router.Handle (r : Router) (method path : String) (hId : Nat) : Option Router :=
  if methods.contains method then
    let t :=
      match lookupStr r.trees method with
      | some t0 => t0
      | none => NewTree
    let path1 := if r.pfx != "" then r.pfx ++ "/" ++ path else path
    let t1 := if r.parameters != "" then { t with parameters := r.parameters } else t
    let t2 := t1.Register path1 hId r.middleware
    some { r with trees := upsert r.trees method t2 }
  else none

/-- Source Get. -/
def Router.Get (r : Router) (path : String) (hId : Nat) : Option Router :=
  r.Handle "GET" path hId

/-- Source GetAndName: store the route name in the router's parameters,
then Get. -/
def Router.GetAndName (r : Router) (path : String) (hId : Nat) (routeName : String) :
    Option Router :=
  ({ r with parameters := routeName }).Get path hId

/-- Source Router.Generate.  The getNode failure case cannot arise for
trees built by Register — routes always binds the key path of a node just
created or updated — and is mapped to panicked. -/
def Router.Generate (r : Router) (method routeName : String)
    (params : List (String × String)) : GenOut :=
  match lookupStr r.trees method with
  | none => .errMethodNotFound
  | some t =>
    match lookupStr t.routes routeName with
    | none => .errRouteNotFound
    | some keys =>
      match getNode t.root keys with
      | none => .panicked
      | some node => genLoop (splitPattern node.path) params []

/-- Observable dispatch events: a handler invocation (with the node's
middleware and the parameter map stored into the request context, none
when dispatch never stored one), the not-found path, a runtime panic, or
an expression outside the modelled regexp fragment. -/
inductive Ev : Type where
  | call (handler : Nat) (middleware : List Nat)
         (params : Option (List (String × String))) : Ev
  | callNotFound : Ev
  | panicEv : Ev
  | unsupportedEv : Ev
deriving DecidableEq

/-- The candidate loop of source ServeHTTP's scan phase: first candidate
with a handler, a stored path different from the request path and a full
match wins; a panic inside matchAndParse aborts dispatch. -/
def scanLoop (url : String) : List Node → List Ev
  | [] => [.callNotFound]
  | node :: rest =>
    match node.handle with
    | some hId =>
      if node.path != url then
        match matchAndParse url node.path with
        | .ok ps => [.call hId node.middleware (some ps)]
        | .noMatch => scanLoop url rest
        | .panicked => [.panicEv]
        | .unsupported => [.unsupportedEv]
      else scanLoop url rest
    | none => scanLoop url rest

/-- Source Router.ServeHTTP as the sequence of invocation events.  Note
the second direct-hit comparison (against the request path with its
leading character removed) is not followed by a return in the source, so
the not-found path also runs after the handler in that branch; requestURL
slicing at [1:] panics on an empty request path, and the scan phase's
list[1] panics when the request path contains no "/". -/
def Router.ServeHTTP (r : Router) (method url : String) : List Ev :=
  match lookupStr r.trees method with
  | none => [.callNotFound]
  | some t =>
    match t.Search url false with
    | node :: _ =>
      (match node.handle with
       | some hId =>
         if node.path == url then [.call hId node.middleware none]
         else if url.toList.length == 0 then [.panicEv]
         else if node.path == String.mk (url.toList.drop 1) then
           [.call hId node.middleware none, .callNotFound]
         else [.callNotFound]
       | none => [.callNotFound])
    | [] =>
      match splitPattern url with
      | _ :: p1 :: _ => scanLoop url (t.Search p1 true)
      | _ => [.panicEv]

/-- Source params.go GetAllParams, read off a dispatch call event's stored
context value: nil when dispatch stored none. -/
def GetAllParams (stored : Option (List (String × String))) :
    Option (List (String × String)) := stored

/-- Source params.go GetParam: GetAllParams(r)[key], where indexing a nil
Go map yields the zero value "". -/
def GetParam (stored : Option (List (String × String))) (key : String) : String :=
  match stored with
  | some m => lookupParam m key
  | none => ""

/-- Handlers for the middleware-ordering law, observed by the event trace
they emit when invoked. -/
def HandlerT : Type := List String

/-- Source Middleware type: a handler transformer. -/
def MiddlewareT : Type := HandlerT → HandlerT

/-- Source router.go handle: fold the middleware list over the handler,
rewrapping at each step, then invoke the result. -/
def handleMW (handler : HandlerT) (middleware : List MiddlewareT) : HandlerT :=
  middleware.foldl (fun baseHandler m => m baseHandler) handler

/-- A side-effecting probe middleware: record the tag, then run the inner
handler. -/
def probe (tag : String) : MiddlewareT := fun next => tag :: next

/-! Concrete states used by the claim theorems, all built through the
embedded registration operations. -/

/-- Router of the user_profile example: GET /user/:user/profile registered
under the name user_profile with handler id 1. -/
def routerUP : Router :=
  match Router.New.GetAndName "/user/:user/profile" 1 "user_profile" with
  | some r => r
  | none => Router.New

/-- The GET tree of routerUP. -/
def treeUP : Tree :=
  match lookupStr routerUP.trees "GET" with
  | some t => t
  | none => NewTree

/-- Tree holding the two literal routes /user/a and /user/b. -/
def tC4 : Tree := (NewTree.Register "/user/a" 7 []).Register "/user/b" 8 []

/-- Router after one named registration: GET /a with handler 1 under the
name N. -/
def routerN : Router :=
  match Router.New.GetAndName "/a" 1 "N" with
  | some r => r
  | none => Router.New

/-- routerN after a subsequent registration that supplies no name: GET /b
with handler 2. -/
def routerN2 : Router :=
  match routerN.Handle "GET" "/b" 2 with
  | some r => r
  | none => Router.New

/-- Router with the trailing-slash route GET /user/ registered under the
name trail2 with handler 6; its stored path user/ has an empty final
segment. -/
def routerTrail : Router :=
  match Router.New.GetAndName "/user/" 6 "trail2" with
  | some r => r
  | none => Router.New

/-- The GET tree of routerTrail. -/
def treeTrail : Tree :=
  match lookupStr routerTrail.trees "GET" with
  | some t => t
  | none => NewTree

/-- The node bound to trail2 inside treeTrail. -/
def nodeTrail : Node :=
  match getNode treeTrail.root ["user", ""] with
  | some n => n
  | none => NewNode "" 0

/-- The existing-or-fresh tree source Handle operates on for a method. -/
def handleTree (r : Router) (method : String) : Tree :=
  match lookupStr r.trees method with
  | some t0 => t0
  | none => NewTree

/-- The pattern source Handle passes to Register: the router prefix, when
non-empty, joined to the path with a slash. -/
def fullPath (r : Router) (path : String) : String :=
  if r.pfx != "" then r.pfx ++ "/" ++ path else path

/-- Key path of the node a Register call makes terminal: the root for the
root pattern, otherwise the segments of the trimmed pattern. -/
def regTarget (t : Tree) (pattern : String) : List String :=
  if pattern == t.root.key then [] else splitPattern (trimPathPrefix pattern)

/-! Helper lemmas shared by the claim theorems. -/

theorem lookupStr_upsert {α : Type} (m : List (String × α)) (k : String) (v : α) :
    lookupStr (upsert m k v) k = some v := by
  induction m with
  | nil => simp [upsert, lookupStr]
  | cons p rest ih =>
    obtain ⟨k0, v0⟩ := p
    by_cases h : k0 == k
    · simp [upsert, h, lookupStr]
    · simp only [upsert, lookupStr, h]
      simp only [Bool.false_eq_true, if_false] at *
      simp [lookupStr, h, ih]

theorem register_routes_bind (t : Tree) (pattern : String) (hId : Nat) (mw : List Nat)
    (h : (t.parameters != "") = true) :
    lookupStr (t.Register pattern hId mw).routes t.parameters
      = some (regTarget t pattern) := by
  simp only [Tree.Register, h, if_true]
  rw [lookupStr_upsert]
  by_cases hc : (pattern == t.root.key) = true <;> simp [regTarget, hc]

theorem searchLoop_exact_outcomes (keys : List String) (node : Node) (pat : String) :
    (∃ c, searchLoop node pat keys false = [c] ∧ c.path = pat)
    ∨ searchLoop node pat keys false = []
    ∨ (∃ n, searchLoop node pat keys false = bfsCollect [n]) := by
  induction keys generalizing node with
  | nil =>
    right; right; exact ⟨node, rfl⟩
  | cons k ks ih =>
    simp only [searchLoop]
    cases h : lookupChild node k with
    | none => right; left; rfl
    | some child =>
      dsimp only
      by_cases hp : (pat == child.path) = true
      · left
        refine ⟨child, ?_, (eq_of_beq hp).symm⟩
        simp [hp]
      · have hp2 : (pat == child.path && !false) = false := by
          simp at hp; simp [hp]
        rw [hp2]
        simpa using ih child

theorem genLoop_reaches_empty (pre : List String) (rest : List String)
    (params : List (String × String)) :
    ∀ acc, (∀ s ∈ pre, ∃ v, genSeg s params = SegOut.val v) →
      genLoop (pre ++ "" :: rest) params acc = GenOut.panicked := by
  induction pre with
  | nil =>
    intro acc _
    simp only [List.nil_append, genLoop, genSeg]
    rfl
  | cons s pre ih =>
    intro acc hall
    obtain ⟨v, hv⟩ := hall s (by simp)
    simp only [List.cons_append, genLoop, hv]
    exact ih _ (fun s hs => hall s (by simp [hs]))

/-! The claim theorems. -/

/-- C1: the claim says dispatching a path whose :user segment is replaced
by the word string KHighness invokes the handler with getParam(r, "user")
equal to KHighness.  The handler is indeed invoked, but the source's
subMatch[:1] reslice binds the parameter to the entire request path, so
getParam returns /user/KHighness/profile, not KHighness: the code
contradicts the spec's positional capture-to-name zipping. -/
theorem c1_dispatch_stores_whole_path_not_segment :
    routerUP.ServeHTTP "GET" "/user/KHighness/profile"
      = [Ev.call 1 [] (some [("user", "/user/KHighness/profile")])]
    ∧ GetParam (some [("user", "/user/KHighness/profile")]) "user"
        = "/user/KHighness/profile"
    ∧ GetParam (some [("user", "/user/KHighness/profile")]) "user" ≠ "KHighness" := by
  refine ⟨by rfl, by rfl, by decide⟩

/-- C2: the round-trip law.  Generate produces /user/KHighness/profile and
dispatching that path invokes the same handler (id 1) that was registered,
but getAllParams recovers the map binding user to the whole request path,
not the supplied parameter map, again because of the subMatch[:1]
reslice. -/
theorem c2_round_trip_handler_same_but_params_lost :
    routerUP.Generate "GET" "user_profile" [("user", "KHighness")]
        = GenOut.ok "/user/KHighness/profile"
    ∧ routerUP.ServeHTTP "GET" "/user/KHighness/profile"
        = [Ev.call 1 [] (some [("user", "/user/KHighness/profile")])]
    ∧ GetAllParams (some [("user", "/user/KHighness/profile")])
        ≠ some [("user", "KHighness")] := by
  refine ⟨by rfl, by rfl, by decide⟩

/-- C3 counterexample: the claim says Generate on /user/:id with id = abc
must return the InvalidParameters error; the source validates every
named-simple segment against defaultPattern [\w]+ (never idPattern), so
abc passes and the path /user/abc is produced. -/
theorem c3_counterexample_id_abc_accepted :
    (Router.New.GetAndName "/user/:id" 4 "uid").map
        (fun r => r.Generate "GET" "uid" [("id", "abc")])
      = some (GenOut.ok "/user/abc") := by rfl

/-- C3 as amended: Generate validates a named-simple segment's value
against the default word pattern by substring search regardless of the
segment's name, so for /user/:id the call succeeds with /user/v exactly
when v contains a word character, and fails with InvalidParameters exactly
when it contains none. -/
theorem c3_amended_named_simple_validated_by_word_search (v : String) :
    (Router.New.GetAndName "/user/:id" 4 "uid").map
        (fun r => r.Generate "GET" "uid" [("id", v)])
      = some (if v.toList.any isWordChar then GenOut.ok ("/user/" ++ v)
              else GenOut.errInvalidParameters) := by
  have e1 : (Router.New.GetAndName "/user/:id" 4 "uid").map
        (fun r => r.Generate "GET" "uid" [("id", v)])
      = some (genLoop [":id"] [("id", v)] ["user"]) := rfl
  rw [e1]
  have e2 : genSeg ":id" [("id", v)] =
      (if v.toList.any isWordChar then SegOut.val v else SegOut.invalid) := rfl
  cases hv : v.toList.any isWordChar with
  | false =>
    have e3 : genSeg ":id" [("id", v)] = SegOut.invalid := by rw [e2, hv]; rfl
    simp [genLoop, e3, hv]
  | true =>
    have e3 : genSeg ":id" [("id", v)] = SegOut.val v := by rw [e2, hv]; rfl
    simp [genLoop, e3, hv, joinSegs]
    have e4 : ("/" : String) ++ "user/" = "/user/" := rfl
    rw [← String.append_assoc, e4]

/-- C4 counterexample: the claim says exact-mode Search always yields a
single root match, a single path-equal match, or the empty result.  On a
tree holding /user/a and /user/b, searching /user descends to the user
node without a missing child and without a path match, then falls through
to the breadth-first scan and returns both end nodes — a two-element
result outside the claim's three outcomes. -/
theorem c4_counterexample_exact_search_returns_two_nodes :
    ((tC4.Search "/user" false).map Node.path = ["user/a", "user/b"])
    ∧ (tC4.Search "/user" false).length = 2 := by
  exact ⟨by rfl, by rfl⟩

/-- C4 as amended: in exact mode Search yields one of four outcomes — the
root when the pattern equals the root's stored path, a single node whose
stored path equals the trimmed pattern, the empty result on a missing
child, or, when descent exhausts every segment, the breadth-first
collection of the end nodes of the reached subtree. -/
theorem c4_amended_exact_search_four_outcomes (t : Tree) (p : String) :
    (p = t.root.path ∧ t.Search p false = [t.root])
    ∨ (∃ c, t.Search p false = [c] ∧ c.path = trimPathPrefix p)
    ∨ t.Search p false = []
    ∨ (∃ n, t.Search p false = bfsCollect [n]) := by
  unfold Tree.Search
  by_cases h : (p == t.root.path) = true
  · left; exact ⟨eq_of_beq h, by simp [h]⟩
  · right
    have h2 : (p == t.root.path) = false := by simpa using h
    rw [h2]
    simpa using
      searchLoop_exact_outcomes (splitPattern (trimPathPrefix p)) t.root (trimPathPrefix p)

/-- C5: whenever matchAndParse reports success, the whole match that
FindSubmatch produced for the compiled expression is the entire request
path — partial and prefix matches are rejected by the explicit
subMatch[0] == requestURL comparison. -/
theorem c5_success_implies_whole_match_is_request_path (url path : String)
    (m : List (String × String)) (h : matchAndParse url path = .ok m) :
    ∃ names pat ps caps,
      buildPattern url path = some (names, pat)
      ∧ compilePat pat = some ps
      ∧ findSub ps url.toList = some (url.toList, caps) := by
  unfold matchAndParse at h
  cases hb : buildPattern url path with
  | none => rw [hb] at h; exact absurd h (by simp)
  | some np =>
    obtain ⟨names, pat⟩ := np
    rw [hb] at h
    dsimp only at h
    cases hc : compilePat pat with
    | none => rw [hc] at h; exact absurd h (by simp)
    | some ps =>
      rw [hc] at h
      dsimp only at h
      cases hf : findSub ps url.toList with
      | none => rw [hf] at h; exact absurd h (by simp)
      | some wc =>
        obtain ⟨whole, caps⟩ := wc
        rw [hf] at h
        dsimp only at h
        by_cases hw : (whole == url.toList) = true
        · have : whole = url.toList := eq_of_beq hw
          subst this
          exact ⟨names, pat, ps, caps, rfl, hc, hf⟩
        · rw [Bool.not_eq_true] at hw
          rw [hw] at h
          exact absurd h (by simp)

/-- C5 witness: on the request /user/abc against the stored path
user/:user, matchAndParse succeeds and the found whole match is the full
request path. -/
theorem c5_witness_concrete_success :
    matchAndParse "/user/abc" "user/:user" = MAPOut.ok [("user", "/user/abc")]
    ∧ ∃ names pat ps caps,
        buildPattern "/user/abc" "user/:user" = some (names, pat)
        ∧ compilePat pat = some ps
        ∧ findSub ps "/user/abc".toList = some ("/user/abc".toList, caps) :=
  ⟨rfl, c5_success_implies_whole_match_is_request_path "/user/abc" "user/:user"
      [("user", "/user/abc")] rfl⟩

/-- C6: Generate fails with the MethodNotFound error whenever no tree
exists for the method, and with the RouteNotFound error whenever the
method's tree exists but does not index the route name; in both cases the
error constructor carries no path. -/
theorem c6_generate_method_and_route_not_found (r : Router) (method nm : String)
    (params : List (String × String)) :
    (lookupStr r.trees method = none →
      r.Generate method nm params = GenOut.errMethodNotFound)
    ∧ (∀ t, lookupStr r.trees method = some t → lookupStr t.routes nm = none →
      r.Generate method nm params = GenOut.errRouteNotFound) := by
  constructor
  · intro h
    unfold Router.Generate
    rw [h]
  · intro t h1 h2
    unfold Router.Generate
    rw [h1]
    dsimp only
    rw [h2]

/-- C6 witness: routerUP has no POST tree, so Generate under POST is
MethodNotFound; its GET tree does not index the name nope, so Generate for
nope under GET is RouteNotFound. -/
theorem c6_witness_concrete_errors :
    lookupStr routerUP.trees "POST" = none
    ∧ routerUP.Generate "POST" "user_profile" [] = GenOut.errMethodNotFound
    ∧ lookupStr treeUP.routes "nope" = none
    ∧ routerUP.Generate "GET" "nope" [] = GenOut.errRouteNotFound :=
  ⟨rfl, (c6_generate_method_and_route_not_found routerUP "POST" "user_profile" []).1 rfl,
   rfl, (c6_generate_method_and_route_not_found routerUP "GET" "nope" []).2 treeUP rfl rfl⟩

/-- C7: for a stored middleware list [A, B], the source handle function
folds the list over the handler, so the composed handler is B (A h) — the
last middleware in storage order is outermost — and with side-effecting
probes the observed order is B, then A, then the original handler. -/
theorem c7_middleware_last_in_storage_runs_first (A B : MiddlewareT) (h : HandlerT) :
    handleMW h [A, B] = B (A h)
    ∧ ∀ (tA tB : String) (base : HandlerT),
        handleMW base [probe tA, probe tB] = tB :: tA :: base :=
  ⟨rfl, fun _ _ _ => rfl⟩

/-- C8: the stored route name is sticky.  If the router's parameters field
holds a non-empty name (set by any earlier named registration) then any
subsequent successful Handle call — even one that supplies no name —
leaves the name in place, copies it into the method's tree, and re-binds
that name in the tree's routes map to the node just registered. -/
theorem c8_route_name_sticky_rebinding (r : Router) (method path : String)
    (hId : Nat) (r2 : Router) (hname : r.parameters ≠ "")
    (hreg : r.Handle method path hId = some r2) :
    r2.parameters = r.parameters
    ∧ ∃ t2, lookupStr r2.trees method = some t2
        ∧ t2.parameters = r.parameters
        ∧ lookupStr t2.routes r.parameters
            = some (regTarget (handleTree r method) (fullPath r path)) := by
  unfold Router.Handle at hreg
  by_cases hm : methods.contains method = true
  · rw [if_pos hm] at hreg
    have hbne : (r.parameters != "") = true := by
      simpa [bne_iff_ne] using hname
    rw [hbne] at hreg
    dsimp only at hreg
    have hr2 := (Option.some.inj hreg).symm
    subst hr2
    refine ⟨rfl, ?_⟩
    refine ⟨_, lookupStr_upsert _ _ _, rfl, ?_⟩
    exact register_routes_bind
      { handleTree r method with parameters := r.parameters }
      (fullPath r path) hId r.middleware hbne
  · rw [if_neg hm] at hreg
    exact absurd hreg (by simp)

/-- C8 witness: after the named registration GET /a as N, the unnamed
registration GET /b re-binds N to the node of /b, and the stored name
stays N. -/
theorem c8_witness_unnamed_rebinds :
    routerN.parameters = "N"
    ∧ (routerN2.parameters = routerN.parameters
       ∧ ∃ t2, lookupStr routerN2.trees "GET" = some t2
           ∧ t2.parameters = routerN.parameters
           ∧ lookupStr t2.routes routerN.parameters
               = some (regTarget (handleTree routerN "GET") (fullPath routerN "/b"))) :=
  ⟨rfl, c8_route_name_sticky_rebinding routerN "GET" "/b" 2 routerN2 (by decide) rfl⟩

/-- C9: for a stored path whose compiled expression collects no capture
name (no named-simple segment — for example only literal and named-regex
segments), a request that whole-matches the compiled expression makes
matchAndParse index matchName[0] on an empty list: the result is a panic,
and the dispatch scan loop turns it into a panic event instead of a
handler invocation. -/
theorem c9_no_named_simple_segment_dispatch_panics (url path pat : String)
    (ps : List Piece) (caps : List (List Char))
    (hb : buildPattern url path = some ([], pat))
    (hc : compilePat pat = some ps)
    (hf : findSub ps url.toList = some (url.toList, caps)) :
    matchAndParse url path = MAPOut.panicked
    ∧ ∀ (n : Node) (rest : List Node) (hId : Nat),
        n.handle = some hId → n.path = path → n.path ≠ url →
        scanLoop url (n :: rest) = [Ev.panicEv] := by
  have hmap : matchAndParse url path = MAPOut.panicked := by
    unfold matchAndParse
    rw [hb]
    dsimp only
    rw [hc]
    dsimp only
    rw [hf]
    simp
  refine ⟨hmap, ?_⟩
  intro n rest hId hh hp hne
  unfold scanLoop
  rw [hh]
  have hbne : (n.path != url) = true := by simpa [bne_iff_ne] using hne
  rw [hbne]
  rw [hp, hmap]
  rfl

/-- C9 witness: the stored path user/{user:\w+} has a dynamic segment but
no named-simple segment; the request /user/KHighness whole-matches its
compiled expression /user/(\w+), matchAndParse panics, and a scan over a
node carrying that path ends in a panic event. -/
theorem c9_witness_regex_only_pattern_panics :
    matchAndParse "/user/KHighness" "user/\x7buser:\\w+\x7d" = MAPOut.panicked
    ∧ scanLoop "/user/KHighness"
        [Node.mk "\x7buser:\\w+\x7d" "user/\x7buser:\\w+\x7d" (some 5) 3 [] true []]
        = [Ev.panicEv] := by
  have h := c9_no_named_simple_segment_dispatch_panics
      "/user/KHighness" "user/\x7buser:\\w+\x7d" "/user/(\\w+)"
      [Piece.lit ['/', 'u', 's', 'e', 'r', '/'], Piece.grp Cls.word]
      [['K', 'H', 'i', 'g', 'h', 'n', 'e', 's', 's']]
      (by decide) (by decide) (by decide)
  exact ⟨h.1, h.2 _ [] 5 rfl rfl (by decide)⟩

/-- C10 counterexample: the claim says Generate panics for every named
route whose stored pattern contains an empty segment.  For the route
/user/:u/ registered as trail, calling Generate with an empty parameter
map makes the earlier :u segment fail its word-pattern validation first,
so Generate returns the recoverable InvalidParameters error and never
reaches the empty segment. -/
theorem c10_counterexample_recoverable_error_before_empty_segment :
    (Router.New.GetAndName "/user/:u/" 11 "trail").map
        (fun r => r.Generate "GET" "trail" [])
      = some GenOut.errInvalidParameters := by rfl

/-- C10 as amended: for a named route whose stored pattern contains an
empty segment, Generate panics by indexing the first character of the
empty segment provided every segment before the first empty one
substitutes successfully; an earlier segment may instead short-circuit
with a recoverable error. -/
theorem c10_amended_generate_panics_reaching_empty_segment (r : Router)
    (method nm : String) (params : List (String × String)) (t : Tree)
    (keys : List String) (node : Node) (pre rest : List String)
    (h1 : lookupStr r.trees method = some t)
    (h2 : lookupStr t.routes nm = some keys)
    (h3 : getNode t.root keys = some node)
    (h4 : splitPattern node.path = pre ++ "" :: rest)
    (h5 : ∀ s ∈ pre, ∃ v, genSeg s params = SegOut.val v) :
    r.Generate method nm params = GenOut.panicked := by
  unfold Router.Generate
  rw [h1]
  dsimp only
  rw [h2]
  dsimp only
  rw [h3]
  dsimp only
  rw [h4]
  exact genLoop_reaches_empty pre rest params [] h5

/-- C10 witness: the route /user/ (stored path user/, whose final segment
is empty) registered as trail2 makes Generate panic: the only earlier
segment user is a literal and substitutes to itself. -/
theorem c10_witness_trailing_slash_panics :
    routerTrail.Generate "GET" "trail2" [] = GenOut.panicked :=
  c10_amended_generate_panics_reaching_empty_segment routerTrail "GET" "trail2" []
    treeTrail ["user", ""] nodeTrail ["user"] [] rfl rfl rfl rfl
    (by intro s hs; rw [List.mem_singleton] at hs; subst hs; exact ⟨"user", rfl⟩)

end KRouter

